import Mathlib

/-
Verification of the RRT (rapidly-exploring random tree) planner in
`src/main.rs`.  The `f32` coordinates are modelled as real numbers, the
thread-local random generator is externalized (each loop iteration takes the
sampled point as an input), and panicking operations return `Option`.
-/

namespace RustRRT

/-- A 2D point, modelling struct `Point` (its two `f32` fields become reals). -/
@[ext]
structure Point where
  x : ℝ
  y : ℝ

/-- Euclidean distance, modelling `Point::distance`:
`((self.x - other.x).powi(2) + (self.y - other.y).powi(2)).sqrt()`. -/
noncomputable def Point.distance (a b : Point) : ℝ :=
  Real.sqrt ((a.x - b.x) ^ 2 + (a.y - b.y) ^ 2)

/-- A tree node, modelling struct `Node`: a point plus an optional parent
index into the tree's node list. -/
structure Node where
  point : Point
  parent : Option Nat

/-- Modelling `Node::new`. -/
def Node.new (point : Point) (parent : Option Nat) : Node :=
  { point := point, parent := parent }

/-- The tree, modelling struct `RRT` minus its `rng` field (randomness is
externalized: the loop operations below take sampled points as inputs). -/
structure RRT where
  nodes : List Node
  goal : Point
  step_size : ℝ
  goal_threshold : ℝ

/-- Modelling `RRT::new`: a single root node holding `start` with no parent. -/
def RRT.new (start goal : Point) (step_size goal_threshold : ℝ) : RRT :=
  { nodes := [Node.new start none], goal := goal, step_size := step_size,
    goal_threshold := goal_threshold }

/-- The two-argument arctangent `y.atan2(x)`, modelled as the argument of the
complex number `x + y*I` (both have range `(-π, π]` and `atan2 0 0 = 0`). -/
noncomputable def atan2 (y x : ℝ) : ℝ :=
  Complex.arg ⟨x, y⟩

/-- The fold performed by `iter().enumerate().min_by(..)` inside
`RRT::find_nearest`: the accumulator is kept unless its distance compares
`Greater` than the candidate's, so on ties the earlier element wins.  `j` is
the index of the first element of the remaining list. -/
noncomputable def findNearestAux (p : Point) : Nat × Node → Nat → List Node → Nat × Node
  | best, _, [] => best
  | best, j, n :: rest =>
    findNearestAux p
      (if best.2.point.distance p > n.point.distance p then (j, n) else best)
      (j + 1) rest

/-- Modelling `RRT::find_nearest`; `none` models the `unwrap` panic on an
empty node list (the comparison `unwrap` cannot fail in the real model, which
has no NaN). -/
noncomputable def RRT.find_nearest (t : RRT) (p : Point) : Option Nat :=
  match t.nodes with
  | [] => none
  | n :: rest => some (findNearestAux p (0, n) 1 rest).1

/-- Modelling `RRT::steer`: move from `fr` a fixed `step_size` along the
bearing toward `to`. -/
noncomputable def RRT.steer (t : RRT) (fr tgt : Point) : Point :=
  let angle := atan2 (tgt.y - fr.y) (tgt.x - fr.x)
  { x := fr.x + t.step_size * Real.cos angle,
    y := fr.y + t.step_size * Real.sin angle }

/-- Modelling `RRT::is_collision_free`: the stub that always succeeds. -/
def RRT.is_collision_free (_t : RRT) (_p : Point) : Bool :=
  true

/-- Modelling `RRT::add_node`: push a node with the given point and parent. -/
def RRT.add_node (t : RRT) (point : Point) (parent_index : Nat) : RRT :=
  { t with nodes := t.nodes ++ [Node.new point (some parent_index)] }

/-- The parent-following loop of `RRT::trace_path`.  The fuel bounds the
number of iterations; `none` models an out-of-bounds node access or a walk
that does not finish within the fuel (the concrete loop would panic or spin
forever on such trees). -/
def traceAux (nodes : List Node) : Nat → Nat → List Point → Option (List Point)
  | 0, _, _ => none
  | fuel + 1, i, path =>
    match nodes[i]? with
    | none => none
    | some n =>
      match n.parent with
      | some pid => traceAux nodes fuel pid (path ++ [n.point])
      | none => some (path ++ [n.point])

/-- Modelling `RRT::trace_path`: walk from the most recently inserted node to
a parentless node, collecting points, then reverse.  `none` models the panic
on an empty tree; fuel `t.nodes.length` is enough for every walk whose parent
indices strictly decrease. -/
def RRT.trace_path (t : RRT) : Option (List Point) :=
  match t.nodes with
  | [] => none
  | _ :: _ => (traceAux t.nodes t.nodes.length (t.nodes.length - 1) []).map List.reverse

/-- Depth of node `i` (1 plus its number of ancestors), computed with fuel. -/
def depthAux (nodes : List Node) : Nat → Nat → Nat
  | 0, _ => 0
  | fuel + 1, i =>
    match nodes[i]? with
    | none => 0
    | some n =>
      match n.parent with
      | none => 1
      | some pid => 1 + depthAux nodes fuel pid

/-- Depth of node `i`; fuel `i + 1` suffices when parent indices strictly
decrease along the ancestor chain. -/
def depth (nodes : List Node) (i : Nat) : Nat :=
  depthAux nodes (i + 1) i

/-- The mutable state of `main`'s frame loop: the tree, the `goal_reached`
flag and the cached `optimal_path`. -/
structure LoopState where
  rrt : RRT
  goal_reached : Bool
  optimal_path : List Point

/-- The growth part of one loop iteration of `main` (nearest node, steer,
conditional insert); the sampled point is an input.  `none` models a panic. -/
noncomputable def growStep (t : RRT) (sample : Point) : Option (RRT × Point) :=
  match t.find_nearest sample with
  | none => none
  | some ni =>
    match t.nodes[ni]? with
    | none => none
    | some nearest =>
      let np := t.steer nearest.point sample
      some (if t.is_collision_free np then t.add_node np ni else t, np)

/-- One full iteration of `main`'s growth loop (rendering omitted): nothing
happens once the flag is set; otherwise grow, then compare the steered
point's distance to the goal against the threshold and cache the traced path
on success. -/
noncomputable def mainStep (s : LoopState) (sample : Point) : Option LoopState :=
  if s.goal_reached then some s
  else
    match growStep s.rrt sample with
    | none => none
    | some (rrt1, np) =>
      if np.distance rrt1.goal < rrt1.goal_threshold then
        match rrt1.trace_path with
        | none => none
        | some path => some { rrt := rrt1, goal_reached := true, optimal_path := path }
      else some { rrt := rrt1, goal_reached := s.goal_reached, optimal_path := s.optimal_path }

/-- Iterating `mainStep` over a stream of sampled points. -/
noncomputable def runLoop : LoopState → List Point → Option LoopState
  | s, [] => some s
  | s, q :: qs =>
    match mainStep s q with
    | none => none
    | some s' => runLoop s' qs

/-- The loop state set up by `main` before its loop starts. -/
def initState (start goal : Point) (step_size goal_threshold : ℝ) : LoopState :=
  { rrt := RRT.new start goal step_size goal_threshold,
    goal_reached := false, optimal_path := [] }

/-- Parent indices strictly decrease: every stored parent index is strictly
smaller than its node's own index. -/
def ParentLt (nodes : List Node) : Prop :=
  ∀ (i : Nat) (n : Node) (p : Nat), nodes[i]? = some n → n.parent = some p → p < i

/-- The spec's tree invariant: node 0 is exactly the parentless node, and
every other node's parent index is strictly smaller than its own index. -/
def TreeInv (nodes : List Node) : Prop :=
  ∀ (i : Nat) (n : Node), nodes[i]? = some n →
    (n.parent = none ↔ i = 0) ∧ ∀ p, n.parent = some p → p < i

/-- A concrete one-node tree used by the witnesses. -/
noncomputable def sampleTree : RRT :=
  RRT.new { x := 0, y := 0 } { x := 0, y := 0 } 1 1

/-- A concrete two-node tree used by the witnesses. -/
noncomputable def sampleTree2 : RRT :=
  (RRT.new { x := 0, y := 0 } { x := 5, y := 5 } 1 1).add_node { x := 1, y := 1 } 0

/-- A concrete loop state whose goal flag is already set, for the witnesses. -/
noncomputable def sampleReached : LoopState :=
  { rrt := sampleTree, goal_reached := true, optimal_path := [] }

/-- A concrete loop state still in the growing phase, for the witnesses. -/
noncomputable def sampleGrowing : LoopState :=
  { rrt := sampleTree, goal_reached := false, optimal_path := [] }

/-- Claim C8: distance is symmetric, vanishes on coincident points, and
vanishes only on coincident points. -/
theorem distance_metric (P Q : Point) :
    P.distance Q = Q.distance P ∧ P.distance P = 0 ∧ (P.distance Q = 0 → P = Q) := by
  refine ⟨?_, ?_, ?_⟩
  · unfold Point.distance
    rw [show (P.x - Q.x) ^ 2 + (P.y - Q.y) ^ 2 = (Q.x - P.x) ^ 2 + (Q.y - P.y) ^ 2 by ring]
  · simp [Point.distance]
  · intro h
    unfold Point.distance at h
    rw [Real.sqrt_eq_zero (by positivity)] at h
    have hx := (add_eq_zero_iff_of_nonneg (sq_nonneg (P.x - Q.x)) (sq_nonneg (P.y - Q.y))).mp h
    ext
    · have := sq_eq_zero_iff.mp hx.1
      linarith [this]
    · have := sq_eq_zero_iff.mp hx.2
      linarith [this]

/-- Witness for C8 at concrete points. -/
theorem distance_metric_witness :
    Point.distance { x := 0, y := 0 } { x := 1, y := 0 }
        = Point.distance { x := 1, y := 0 } { x := 0, y := 0 } ∧
      Point.distance { x := 0, y := 0 } { x := 0, y := 0 } = 0 ∧
      (Point.distance { x := 0, y := 0 } { x := 1, y := 0 } = 0 →
        ({ x := 0, y := 0 } : Point) = { x := 1, y := 0 }) :=
  distance_metric { x := 0, y := 0 } { x := 1, y := 0 }

/-- Claim C3: `steer` returns `fr + step_size * (cos angle, sin angle)` with
`angle = atan2 (tgt.y - fr.y) (tgt.x - fr.x)`; for a nonnegative step size the
result is at Euclidean distance exactly `step_size` from `fr`, and when the
two points differ it lies on the ray from `fr` through `tgt`. -/
theorem steer_spec (t : RRT) (fr tgt : Point) (hs : 0 ≤ t.step_size) :
    t.steer fr tgt =
      { x := fr.x + t.step_size * Real.cos (atan2 (tgt.y - fr.y) (tgt.x - fr.x)),
        y := fr.y + t.step_size * Real.sin (atan2 (tgt.y - fr.y) (tgt.x - fr.x)) } ∧
    (t.steer fr tgt).distance fr = t.step_size ∧
    (fr ≠ tgt → ∃ c, 0 ≤ c ∧
      (t.steer fr tgt).x - fr.x = c * (tgt.x - fr.x) ∧
      (t.steer fr tgt).y - fr.y = c * (tgt.y - fr.y)) := by
  refine ⟨rfl, ?_, ?_⟩
  · show Point.distance
      { x := fr.x + t.step_size * Real.cos (atan2 (tgt.y - fr.y) (tgt.x - fr.x)),
        y := fr.y + t.step_size * Real.sin (atan2 (tgt.y - fr.y) (tgt.x - fr.x)) } fr
      = t.step_size
    unfold Point.distance
    have h1 : (fr.x + t.step_size * Real.cos (atan2 (tgt.y - fr.y) (tgt.x - fr.x)) - fr.x) ^ 2
        + (fr.y + t.step_size * Real.sin (atan2 (tgt.y - fr.y) (tgt.x - fr.x)) - fr.y) ^ 2
        = t.step_size ^ 2 := by
      have h2 := Real.cos_sq_add_sin_sq (atan2 (tgt.y - fr.y) (tgt.x - fr.x))
      nlinarith [h2]
    rw [h1, Real.sqrt_sq hs]
  · intro hne
    have hz : (⟨tgt.x - fr.x, tgt.y - fr.y⟩ : ℂ) ≠ 0 := by
      intro h0
      apply hne
      have hx := congrArg Complex.re h0
      have hy := congrArg Complex.im h0
      simp only [Complex.zero_re, Complex.zero_im] at hx hy
      ext
      · linarith [hx]
      · linarith [hy]
    have habs : 0 < Complex.abs ⟨tgt.x - fr.x, tgt.y - fr.y⟩ := Complex.abs.pos hz
    refine ⟨t.step_size / Complex.abs ⟨tgt.x - fr.x, tgt.y - fr.y⟩,
      div_nonneg hs (Complex.abs.nonneg _), ?_, ?_⟩
    · show fr.x + t.step_size * Real.cos (atan2 (tgt.y - fr.y) (tgt.x - fr.x)) - fr.x = _
      unfold atan2
      rw [Complex.cos_arg hz]
      ring
    · show fr.y + t.step_size * Real.sin (atan2 (tgt.y - fr.y) (tgt.x - fr.x)) - fr.y = _
      unfold atan2
      rw [Complex.sin_arg]
      ring

/-- Witness for C3 at a concrete tree and pair of points. -/
theorem steer_spec_witness :
    0 ≤ sampleTree.step_size ∧
      (sampleTree.steer { x := 0, y := 0 } { x := 1, y := 0 } =
        { x := (0:ℝ) + sampleTree.step_size * Real.cos (atan2 ((0:ℝ) - 0) ((1:ℝ) - 0)),
          y := (0:ℝ) + sampleTree.step_size * Real.sin (atan2 ((0:ℝ) - 0) ((1:ℝ) - 0)) } ∧
      (sampleTree.steer { x := 0, y := 0 } { x := 1, y := 0 }).distance { x := 0, y := 0 }
        = sampleTree.step_size ∧
      (({ x := 0, y := 0 } : Point) ≠ { x := 1, y := 0 } → ∃ c, 0 ≤ c ∧
        (sampleTree.steer { x := 0, y := 0 } { x := 1, y := 0 }).x - 0 = c * ((1:ℝ) - 0) ∧
        (sampleTree.steer { x := 0, y := 0 } { x := 1, y := 0 }).y - 0 = c * ((0:ℝ) - 0))) :=
  ⟨zero_le_one, steer_spec sampleTree { x := 0, y := 0 } { x := 1, y := 0 } zero_le_one⟩

lemma findNearestAux_spec (p : Point) (L : List Node) :
    ∀ (rest : List Node) (j : Nat) (best : Nat × Node),
      L.drop j = rest → best.1 < j → L[best.1]? = some best.2 →
      (∀ (k : Nat) (m : Node), k < j → L[k]? = some m → best.2.point.distance p ≤ m.point.distance p) →
      (∀ (k : Nat) (m : Node), k < best.1 → L[k]? = some m → best.2.point.distance p < m.point.distance p) →
      (findNearestAux p best j rest).1 < L.length ∧
        L[(findNearestAux p best j rest).1]? = some (findNearestAux p best j rest).2 ∧
        (∀ (k : Nat) (m : Node), L[k]? = some m →
          (findNearestAux p best j rest).2.point.distance p ≤ m.point.distance p) ∧
        (∀ (k : Nat) (m : Node), k < (findNearestAux p best j rest).1 → L[k]? = some m →
          (findNearestAux p best j rest).2.point.distance p < m.point.distance p) := by
  intro rest
  induction rest with
  | nil =>
    intro j best hdrop hlt hget hmin hstrict
    simp only [findNearestAux]
    have hjL : L.length ≤ j := by
      by_contra hcon
      push_neg at hcon
      have hne : L.drop j ≠ [] := by
        rw [ne_eq, List.drop_eq_nil_iff]
        omega
      exact hne hdrop
    have hb : best.1 < L.length := (List.getElem?_eq_some_iff.mp hget).1
    exact ⟨hb, hget, fun k m hkm =>
      hmin k m (lt_of_lt_of_le (List.getElem?_eq_some_iff.mp hkm).1 hjL) hkm, hstrict⟩
  | cons n rest' ih =>
    intro j best hdrop hlt hget hmin hstrict
    have hj : L[j]? = some n := by
      have hd := List.getElem?_drop L j 0
      rw [hdrop] at hd
      simp at hd
      exact hd.symm
    have hdrop' : L.drop (j + 1) = rest' := by
      have hd : (L.drop j).drop 1 = L.drop (j + 1) := by
        rw [List.drop_drop]
      rw [hdrop] at hd
      simp at hd
      exact hd.symm
    simp only [findNearestAux]
    by_cases hcmp : best.2.point.distance p > n.point.distance p
    · rw [if_pos hcmp]
      apply ih (j + 1) (j, n) hdrop' (Nat.lt_succ_self j) hj
      · intro k m hk hkm
        have hk' : k < j ∨ k = j := by omega
        rcases hk' with hk' | rfl
        · exact le_of_lt (lt_of_lt_of_le hcmp (hmin k m hk' hkm))
        · rw [hj] at hkm
          cases hkm
          exact le_refl _
      · intro k m hk hkm
        exact lt_of_lt_of_le hcmp (hmin k m hk hkm)
    · rw [if_neg hcmp]
      push_neg at hcmp
      apply ih (j + 1) best hdrop' (Nat.lt_succ_of_lt hlt) hget
      · intro k m hk hkm
        have hk' : k < j ∨ k = j := by omega
        rcases hk' with hk' | rfl
        · exact hmin k m hk' hkm
        · rw [hj] at hkm
          cases hkm
          exact hcmp
      · exact hstrict

lemma find_nearest_spec (t : RRT) (p : Point) (hne : t.nodes ≠ []) :
    ∃ i n, t.find_nearest p = some i ∧ i < t.nodes.length ∧ t.nodes[i]? = some n ∧
      (∀ (k : Nat) (m : Node), t.nodes[k]? = some m → n.point.distance p ≤ m.point.distance p) ∧
      (∀ (k : Nat) (m : Node), k < i → t.nodes[k]? = some m → n.point.distance p < m.point.distance p) := by
  cases hL : t.nodes with
  | nil => exact absurd hL hne
  | cons n0 rest =>
    have hfn : t.find_nearest p = some (findNearestAux p (0, n0) 1 rest).1 := by
      unfold RRT.find_nearest
      rw [hL]
    have hmin0 : ∀ (k : Nat) (m : Node), k < 1 → (n0 :: rest)[k]? = some m →
        n0.point.distance p ≤ m.point.distance p := by
      intro k m hk hkm
      match k, hk with
      | 0, _ =>
        simp only [List.getElem?_cons_zero, Option.some.injEq] at hkm
        rw [← hkm]
    have h := findNearestAux_spec p (n0 :: rest) rest 1 (0, n0) rfl Nat.zero_lt_one
      (by simp) hmin0
      (fun k m hk hkm => absurd hk (Nat.not_lt_zero k))
    exact ⟨(findNearestAux p (0, n0) 1 rest).1, (findNearestAux p (0, n0) 1 rest).2,
      hfn, h.1, h.2.1, h.2.2.1, h.2.2.2⟩

/-- Claim C1: on a non-empty node list, `find_nearest` returns a valid index
whose node's distance to the query point is a minimum, and every strictly
earlier node has strictly greater distance (stable argmin, first winner). -/
theorem find_nearest_correct (t : RRT) (p : Point) (hne : t.nodes ≠ []) :
    ∃ i, t.find_nearest p = some i ∧ i < t.nodes.length ∧
      ∃ n, t.nodes[i]? = some n ∧
        (∀ (k : Nat) (m : Node), t.nodes[k]? = some m → n.point.distance p ≤ m.point.distance p) ∧
        (∀ (k : Nat) (m : Node), k < i → t.nodes[k]? = some m → n.point.distance p < m.point.distance p) := by
  obtain ⟨i, n, h1, h2, h3, h4, h5⟩ := find_nearest_spec t p hne
  exact ⟨i, h1, h2, n, h3, h4, h5⟩

/-- Witness for C1 on a concrete one-node tree. -/
theorem find_nearest_correct_witness :
    sampleTree.nodes ≠ [] ∧
      (∃ i, sampleTree.find_nearest { x := 2, y := 0 } = some i ∧
        i < sampleTree.nodes.length ∧
        ∃ n, sampleTree.nodes[i]? = some n ∧
          (∀ (k : Nat) (m : Node), sampleTree.nodes[k]? = some m →
            n.point.distance { x := 2, y := 0 } ≤ m.point.distance { x := 2, y := 0 }) ∧
          (∀ (k : Nat) (m : Node), k < i → sampleTree.nodes[k]? = some m →
            n.point.distance { x := 2, y := 0 } < m.point.distance { x := 2, y := 0 })) :=
  ⟨List.cons_ne_nil _ _, find_nearest_correct sampleTree { x := 2, y := 0 }
    (List.cons_ne_nil _ _)⟩

/-- Claim C9: `find_nearest` fails only on an empty node list — on any
non-empty list it returns a valid index without panicking. -/
theorem find_nearest_total (t : RRT) (p : Point) (hne : t.nodes ≠ []) :
    ∃ i, t.find_nearest p = some i ∧ i < t.nodes.length := by
  obtain ⟨i, n, h1, h2, _⟩ := find_nearest_spec t p hne
  exact ⟨i, h1, h2⟩

/-- Witness for C9 on a concrete one-node tree. -/
theorem find_nearest_total_witness :
    sampleTree.nodes ≠ [] ∧
      ∃ i, sampleTree.find_nearest { x := 3, y := 4 } = some i ∧
        i < sampleTree.nodes.length :=
  ⟨List.cons_ne_nil _ _, find_nearest_total sampleTree { x := 3, y := 4 }
    (List.cons_ne_nil _ _)⟩

lemma getLast?_cons_ne {α : Type} (a : α) (l : List α) (h : l ≠ []) :
    (a :: l).getLast? = l.getLast? := by
  cases l with
  | nil => exact absurd rfl h
  | cons b u => simp [List.getLast?_cons_cons]

lemma TreeInv.parentLt {nodes : List Node} (h : TreeInv nodes) : ParentLt nodes :=
  fun i n p hn hp => (h i n hn).2 p hp

lemma depthAux_congr (nodes : List Node) (hp : ParentLt nodes) :
    ∀ (i f1 f2 : Nat), i < f1 → i < f2 → depthAux nodes f1 i = depthAux nodes f2 i := by
  intro i
  induction i using Nat.strong_induction_on with
  | _ i ih =>
    intro f1 f2 h1 h2
    obtain ⟨g1, rfl⟩ : ∃ g, f1 = g + 1 := ⟨f1 - 1, by omega⟩
    obtain ⟨g2, rfl⟩ : ∃ g, f2 = g + 1 := ⟨f2 - 1, by omega⟩
    cases hn : nodes[i]? with
    | none => simp [depthAux, hn]
    | some n =>
      cases hparent : n.parent with
      | none => simp [depthAux, hn, hparent]
      | some pid =>
        have hlt : pid < i := hp i n pid hn hparent
        simp only [depthAux, hn, hparent]
        rw [ih pid hlt g1 g2 (by omega) (by omega)]

lemma depthAux_succ (nodes : List Node) (fuel i : Nat) (n : Node) (pid : Nat)
    (hn : nodes[i]? = some n) (hparent : n.parent = some pid) :
    depthAux nodes (fuel + 1) i = 1 + depthAux nodes fuel pid := by
  simp only [depthAux, hn, hparent]

lemma depth_step (nodes : List Node) (hp : ParentLt nodes) (i : Nat) (n : Node) (pid : Nat)
    (hn : nodes[i]? = some n) (hparent : n.parent = some pid) :
    depth nodes i = 1 + depth nodes pid := by
  have hlt : pid < i := hp i n pid hn hparent
  unfold depth
  rw [depthAux_succ nodes i i n pid hn hparent,
    depthAux_congr nodes hp pid i (pid + 1) (by omega) (by omega)]

lemma traceAux_total (nodes : List Node) (hp : ParentLt nodes) :
    ∀ (i fuel : Nat), i < fuel → ∀ (n : Node), nodes[i]? = some n →
      ∀ (acc : List Point), ∃ l, traceAux nodes fuel i acc = some l := by
  intro i
  induction i using Nat.strong_induction_on with
  | _ i ih =>
    intro fuel hfuel n hn acc
    obtain ⟨g, rfl⟩ : ∃ g, fuel = g + 1 := ⟨fuel - 1, by omega⟩
    simp only [traceAux, hn]
    cases hparent : n.parent with
    | none => exact ⟨acc ++ [n.point], rfl⟩
    | some pid =>
      have hlt : pid < i := hp i n pid hn hparent
      have hpbound : pid < nodes.length := by
        have hi := (List.getElem?_eq_some_iff.mp hn).1
        omega
      obtain ⟨m, hm⟩ : ∃ m, nodes[pid]? = some m :=
        ⟨nodes[pid], List.getElem?_eq_getElem hpbound⟩
      exact ih pid hlt g (by omega) m hm (acc ++ [n.point])

lemma traceAux_spec (nodes : List Node) (hinv : TreeInv nodes) :
    ∀ (i fuel : Nat), i < fuel → ∀ (n : Node), nodes[i]? = some n →
      ∀ (acc : List Point), ∃ l, traceAux nodes fuel i acc = some (acc ++ l) ∧
        l.head? = some n.point ∧
        (∃ r, nodes[0]? = some r ∧ l.getLast? = some r.point) ∧
        l.length = depth nodes i := by
  intro i
  induction i using Nat.strong_induction_on with
  | _ i ih =>
    intro fuel hfuel n hn acc
    obtain ⟨g, rfl⟩ : ∃ g, fuel = g + 1 := ⟨fuel - 1, by omega⟩
    simp only [traceAux, hn]
    cases hparent : n.parent with
    | none =>
      have h0 : i = 0 := (hinv i n hn).1.mp hparent
      subst h0
      refine ⟨[n.point], rfl, rfl, ⟨n, hn, by simp⟩, ?_⟩
      simp [depth, depthAux, hn, hparent]
    | some pid =>
      have hlt : pid < i := (hinv i n hn).2 pid hparent
      have hpbound : pid < nodes.length := by
        have hi := (List.getElem?_eq_some_iff.mp hn).1
        omega
      obtain ⟨m, hm⟩ : ∃ m, nodes[pid]? = some m :=
        ⟨nodes[pid], List.getElem?_eq_getElem hpbound⟩
      obtain ⟨l', heq, hhead, hlast, hlen⟩ := ih pid hlt g (by omega) m hm (acc ++ [n.point])
      refine ⟨n.point :: l', ?_, rfl, ?_, ?_⟩
      · show traceAux nodes g pid (acc ++ [n.point]) = some (acc ++ n.point :: l')
        rw [heq]
        simp
      · obtain ⟨r, hr, hlast'⟩ := hlast
        refine ⟨r, hr, ?_⟩
        have hl'ne : l' ≠ [] := by
          intro hemp
          rw [hemp] at hhead
          simp at hhead
        rw [getLast?_cons_ne n.point l' hl'ne]
        exact hlast'
      · have hd := depth_step nodes hinv.parentLt i n pid hn hparent
        simp only [List.length_cons, hlen, hd]
        omega

lemma trace_path_total (t : RRT) (hp : ParentLt t.nodes) (hne : t.nodes ≠ []) :
    ∃ l, t.trace_path = some l := by
  have hlen : 0 < t.nodes.length := List.length_pos.mpr hne
  have hbound : t.nodes.length - 1 < t.nodes.length := by omega
  obtain ⟨n, hn⟩ : ∃ n, t.nodes[t.nodes.length - 1]? = some n :=
    ⟨t.nodes[t.nodes.length - 1], List.getElem?_eq_getElem hbound⟩
  obtain ⟨l, hl⟩ :=
    traceAux_total t.nodes hp (t.nodes.length - 1) t.nodes.length (by omega) n hn []
  refine ⟨l.reverse, ?_⟩
  cases hL : t.nodes with
  | nil => exact absurd hL hne
  | cons n0 rest =>
    unfold RRT.trace_path
    rw [hL] at hl ⊢
    rw [hl]
    rfl

/-- Claim C10: on a non-empty tree whose parent indices are strictly smaller
than their node's own index, the parent-following walk of `trace_path`
terminates (the walk's index strictly decreases, so fuel `nodes.length`
suffices) and produces a path. -/
theorem trace_path_terminates (t : RRT) (hp : ParentLt t.nodes) (hne : t.nodes ≠ []) :
    ∃ l, t.trace_path = some l :=
  trace_path_total t hp hne

/-- Claim C4: on a non-empty tree satisfying the parent-index invariant,
`trace_path` returns a path that starts at the root's point, ends at the
point of the most recently inserted node, and whose length is that node's
depth (1 plus its number of ancestors). -/
theorem trace_path_correct (t : RRT) (hinv : TreeInv t.nodes) (hne : t.nodes ≠ []) :
    ∃ path, t.trace_path = some path ∧
      path.head? = (t.nodes[0]?).map Node.point ∧
      path.getLast? = (t.nodes[t.nodes.length - 1]?).map Node.point ∧
      path.length = depth t.nodes (t.nodes.length - 1) := by
  have hlen : 0 < t.nodes.length := List.length_pos.mpr hne
  have hbound : t.nodes.length - 1 < t.nodes.length := by omega
  obtain ⟨n, hn⟩ : ∃ n, t.nodes[t.nodes.length - 1]? = some n :=
    ⟨t.nodes[t.nodes.length - 1], List.getElem?_eq_getElem hbound⟩
  obtain ⟨l, heq, hhead, ⟨r, hr, hlast⟩, hlength⟩ :=
    traceAux_spec t.nodes hinv (t.nodes.length - 1) t.nodes.length (by omega) n hn []
  refine ⟨l.reverse, ?_, ?_, ?_, ?_⟩
  · cases hL : t.nodes with
    | nil => exact absurd hL hne
    | cons n0 rest =>
      unfold RRT.trace_path
      rw [hL] at heq ⊢
      simp only [List.nil_append] at heq
      rw [heq]
      rfl
  · rw [List.head?_reverse, hlast, hr]
    rfl
  · rw [List.getLast?_reverse, hhead, hn]
    rfl
  · rw [List.length_reverse, hlength]

lemma sampleTree_treeInv : TreeInv sampleTree.nodes := by
  intro i n hn
  match i with
  | 0 =>
    simp only [sampleTree, RRT.new, List.getElem?_cons_zero, Option.some.injEq] at hn
    subst hn
    simp [Node.new]
  | k + 1 => simp [sampleTree, RRT.new] at hn

lemma sampleTree2_parentLt : ParentLt sampleTree2.nodes := by
  intro i n p hn hp
  match i with
  | 0 =>
    simp only [sampleTree2, RRT.new, RRT.add_node, Node.new, List.cons_append,
      List.nil_append, List.getElem?_cons_zero, Option.some.injEq] at hn
    subst hn
    simp at hp
  | 1 =>
    simp only [sampleTree2, RRT.new, RRT.add_node, Node.new, List.cons_append,
      List.nil_append, List.getElem?_cons_succ, List.getElem?_cons_zero,
      Option.some.injEq] at hn
    subst hn
    simp only [Option.some.injEq] at hp
    omega
  | k + 2 => simp [sampleTree2, RRT.new, RRT.add_node] at hn

/-- Witness for C10 on a concrete two-node tree. -/
theorem trace_path_terminates_witness :
    ParentLt sampleTree2.nodes ∧ sampleTree2.nodes ≠ [] ∧
      ∃ l, sampleTree2.trace_path = some l :=
  ⟨sampleTree2_parentLt, by simp [sampleTree2, RRT.new, RRT.add_node],
    trace_path_terminates sampleTree2 sampleTree2_parentLt
      (by simp [sampleTree2, RRT.new, RRT.add_node])⟩

/-- Witness for C4 on a concrete one-node tree. -/
theorem trace_path_correct_witness :
    TreeInv sampleTree.nodes ∧ sampleTree.nodes ≠ [] ∧
      ∃ path, sampleTree.trace_path = some path ∧
        path.head? = (sampleTree.nodes[0]?).map Node.point ∧
        path.getLast? = (sampleTree.nodes[sampleTree.nodes.length - 1]?).map Node.point ∧
        path.length = depth sampleTree.nodes (sampleTree.nodes.length - 1) :=
  ⟨sampleTree_treeInv, List.cons_ne_nil _ _,
    trace_path_correct sampleTree sampleTree_treeInv (List.cons_ne_nil _ _)⟩

lemma growStep_eq (t : RRT) (q : Point) (t' : RRT) (np : Point)
    (h : growStep t q = some (t', np)) :
    ∃ ni nearest, t.find_nearest q = some ni ∧ t.nodes[ni]? = some nearest ∧
      np = t.steer nearest.point q ∧ t' = t.add_node (t.steer nearest.point q) ni := by
  unfold growStep at h
  cases hf : t.find_nearest q with
  | none => simp [hf] at h
  | some ni =>
    simp only [hf] at h
    cases hg : t.nodes[ni]? with
    | none => simp [hg] at h
    | some nearest =>
      simp only [hg, RRT.is_collision_free, if_true, Option.some.injEq,
        Prod.mk.injEq] at h
      exact ⟨ni, nearest, rfl, hg, h.2.symm, h.1.symm⟩

lemma mainStep_of_reached (s : LoopState) (q : Point) (hg : s.goal_reached = true) :
    mainStep s q = some s := by
  unfold mainStep
  rw [hg, if_pos rfl]

lemma mainStep_eq (s : LoopState) (q : Point) (s' : LoopState)
    (hg : s.goal_reached = false) (h : mainStep s q = some s') :
    ∃ rrt1 np, growStep s.rrt q = some (rrt1, np) ∧
      ((np.distance rrt1.goal < rrt1.goal_threshold ∧
        ∃ path, rrt1.trace_path = some path ∧
          s' = { rrt := rrt1, goal_reached := true, optimal_path := path }) ∨
       (¬ np.distance rrt1.goal < rrt1.goal_threshold ∧
        s' = { rrt := rrt1, goal_reached := s.goal_reached,
               optimal_path := s.optimal_path })) := by
  unfold mainStep at h
  rw [hg, if_neg Bool.false_ne_true] at h
  cases hgs : growStep s.rrt q with
  | none => simp [hgs] at h
  | some pr =>
    obtain ⟨rrt1, np⟩ := pr
    simp only [hgs] at h
    refine ⟨rrt1, np, rfl, ?_⟩
    by_cases hd : np.distance rrt1.goal < rrt1.goal_threshold
    · rw [if_pos hd] at h
      cases htp : rrt1.trace_path with
      | none => simp [htp] at h
      | some path =>
        simp only [htp, Option.some.injEq] at h
        exact Or.inl ⟨hd, path, rfl, h.symm⟩
    · rw [if_neg hd] at h
      simp only [Option.some.injEq] at h
      refine Or.inr ⟨hd, ?_⟩
      rw [hg]
      exact h.symm

lemma TreeInv_append (nodes : List Node) (hinv : TreeInv nodes) (p : Point) (k : Nat)
    (hk : k < nodes.length) : TreeInv (nodes ++ [Node.new p (some k)]) := by
  intro i n hn
  rcases Nat.lt_trichotomy i nodes.length with hi | hi | hi
  · rw [List.getElem?_append_left hi] at hn
    exact hinv i n hn
  · subst hi
    rw [List.getElem?_concat_length, Option.some.injEq] at hn
    subst hn
    constructor
    · simp only [Node.new]
      constructor
      · intro hcon
        cases hcon
      · intro hcon
        omega
    · intro pq hpq
      simp only [Node.new, Option.some.injEq] at hpq
      omega
  · have hnone : (nodes ++ [Node.new p (some k)])[i]? = none := by
      rw [List.getElem?_eq_none_iff, List.length_append, List.length_singleton]
      omega
    rw [hnone] at hn
    cases hn

lemma ParentLt_append (nodes : List Node) (hp : ParentLt nodes) (p : Point) (k : Nat)
    (hk : k < nodes.length) : ParentLt (nodes ++ [Node.new p (some k)]) := by
  intro i n pq hn hpq
  rcases Nat.lt_trichotomy i nodes.length with hi | hi | hi
  · rw [List.getElem?_append_left hi] at hn
    exact hp i n pq hn hpq
  · subst hi
    rw [List.getElem?_concat_length, Option.some.injEq] at hn
    subst hn
    simp only [Node.new, Option.some.injEq] at hpq
    omega
  · have hnone : (nodes ++ [Node.new p (some k)])[i]? = none := by
      rw [List.getElem?_eq_none_iff, List.length_append, List.length_singleton]
      omega
    rw [hnone] at hn
    cases hn

lemma mainStep_inv (s s' : LoopState) (q : Point) (hinv : TreeInv s.rrt.nodes)
    (h : mainStep s q = some s') : TreeInv s'.rrt.nodes := by
  cases hg : s.goal_reached with
  | true =>
    rw [mainStep_of_reached s q hg] at h
    injection h with h
    rw [← h]
    exact hinv
  | false =>
    obtain ⟨rrt1, np, hgs, hcase⟩ := mainStep_eq s q s' hg h
    obtain ⟨ni, nearest, hf, hn, hnp, ht'⟩ := growStep_eq s.rrt q rrt1 np hgs
    have hni : ni < s.rrt.nodes.length := (List.getElem?_eq_some_iff.mp hn).1
    have hinv1 : TreeInv rrt1.nodes := by
      rw [ht']
      exact TreeInv_append s.rrt.nodes hinv _ ni hni
    rcases hcase with ⟨_, path, _, hs'⟩ | ⟨_, hs'⟩ <;> rw [hs'] <;> exact hinv1

lemma runLoop_inv : ∀ (qs : List Point) (s s' : LoopState),
    TreeInv s.rrt.nodes → runLoop s qs = some s' → TreeInv s'.rrt.nodes := by
  intro qs
  induction qs with
  | nil =>
    intro s s' hinv h
    simp only [runLoop, Option.some.injEq] at h
    rw [← h]
    exact hinv
  | cons q qs ih =>
    intro s s' hinv h
    simp only [runLoop] at h
    cases hm : mainStep s q with
    | none => simp [hm] at h
    | some s1 =>
      simp only [hm] at h
      exact ih s1 s' (mainStep_inv s s1 q hinv hm) h

lemma initState_treeInv (start goal : Point) (st th : ℝ) :
    TreeInv (initState start goal st th).rrt.nodes := by
  intro i n hn
  match i with
  | 0 =>
    simp only [initState, RRT.new, List.getElem?_cons_zero, Option.some.injEq] at hn
    subst hn
    simp [Node.new]
  | k + 1 => simp [initState, RRT.new] at hn

/-- Claim C2: in every loop state reachable from the initial state by the
growth loop, node 0 has no parent and every other node's parent index is
strictly smaller than its own index — the parent graph is a finite,
cycle-free, single-rooted tree after every insertion. -/
theorem tree_invariant_reachable (start goal : Point) (st th : ℝ)
    (qs : List Point) (s' : LoopState)
    (h : runLoop (initState start goal st th) qs = some s') :
    (∀ (n : Node), s'.rrt.nodes[0]? = some n → n.parent = none) ∧
    (∀ (i : Nat) (n : Node) (p : Nat),
      s'.rrt.nodes[i]? = some n → n.parent = some p → p < i) := by
  have hinv := runLoop_inv qs (initState start goal st th) s'
    (initState_treeInv start goal st th) h
  constructor
  · intro n hn
    exact ((hinv 0 n hn).1).mpr rfl
  · intro i n p hn hp
    exact (hinv i n hn).2 p hp

/-- Witness for C2 with an empty sample stream. -/
theorem tree_invariant_reachable_witness :
    runLoop (initState { x := 0, y := 0 } { x := 1, y := 1 } 1 1) []
        = some (initState { x := 0, y := 0 } { x := 1, y := 1 } 1 1) ∧
      ((∀ (n : Node),
          (initState { x := 0, y := 0 } { x := 1, y := 1 } 1 1).rrt.nodes[0]? = some n →
            n.parent = none) ∧
       (∀ (i : Nat) (n : Node) (p : Nat),
          (initState { x := 0, y := 0 } { x := 1, y := 1 } 1 1).rrt.nodes[i]? = some n →
            n.parent = some p → p < i)) :=
  ⟨rfl, tree_invariant_reachable { x := 0, y := 0 } { x := 1, y := 1 } 1 1 []
    (initState { x := 0, y := 0 } { x := 1, y := 1 } 1 1) rfl⟩

/-- Claim C6: the goal-reached flag is sticky — once it is set, every further
iteration of the growth loop leaves the whole state (tree, flag and cached
path) unchanged. -/
theorem goal_reached_sticky (s : LoopState) (hg : s.goal_reached = true)
    (qs : List Point) : runLoop s qs = some s := by
  induction qs with
  | nil => rfl
  | cons q qs ih =>
    have hm := mainStep_of_reached s q hg
    simp only [runLoop, hm]
    exact ih

/-- Witness for C6 on a concrete reached state. -/
theorem goal_reached_sticky_witness :
    sampleReached.goal_reached = true ∧
      runLoop sampleReached [{ x := 0, y := 0 }] = some sampleReached :=
  ⟨rfl, goal_reached_sticky sampleReached rfl [{ x := 0, y := 0 }]⟩

lemma mainStep_frame (s s' : LoopState) (q : Point) (h : mainStep s q = some s') :
    s.rrt.nodes.length ≤ s'.rrt.nodes.length ∧
    (∀ (i : Nat), i < s.rrt.nodes.length → s'.rrt.nodes[i]? = s.rrt.nodes[i]?) := by
  cases hg : s.goal_reached with
  | true =>
    rw [mainStep_of_reached s q hg] at h
    injection h with h
    rw [← h]
    exact ⟨le_refl _, fun i hi => rfl⟩
  | false =>
    obtain ⟨rrt1, np, hgs, hcase⟩ := mainStep_eq s q s' hg h
    obtain ⟨ni, nearest, hf, hn, hnp, ht'⟩ := growStep_eq s.rrt q rrt1 np hgs
    have hfacts : s.rrt.nodes.length ≤ rrt1.nodes.length ∧
        (∀ (i : Nat), i < s.rrt.nodes.length → rrt1.nodes[i]? = s.rrt.nodes[i]?) := by
      rw [ht']
      constructor
      · simp [RRT.add_node]
      · intro i hi
        exact List.getElem?_append_left hi
    rcases hcase with ⟨_, path, _, hs'⟩ | ⟨_, hs'⟩ <;> rw [hs'] <;> exact hfacts

/-- Claim C7: `add_node` grows the node list by exactly one and leaves every
existing node (point and parent) unchanged; and across any loop iteration the
node count never decreases and no already-inserted node is removed or
mutated. -/
theorem add_node_frame (t : RRT) (p : Point) (k : Nat) (s : LoopState) (q : Point)
    (s' : LoopState) (h : mainStep s q = some s') :
    (t.add_node p k).nodes.length = t.nodes.length + 1 ∧
    (∀ (i : Nat), i < t.nodes.length → (t.add_node p k).nodes[i]? = t.nodes[i]?) ∧
    s.rrt.nodes.length ≤ s'.rrt.nodes.length ∧
    (∀ (i : Nat), i < s.rrt.nodes.length → s'.rrt.nodes[i]? = s.rrt.nodes[i]?) := by
  have hframe := mainStep_frame s s' q h
  refine ⟨?_, ?_, hframe.1, hframe.2⟩
  · simp [RRT.add_node]
  · intro i hi
    exact List.getElem?_append_left hi

/-- Witness for C7 on a concrete tree and a concrete (already-reached) loop
iteration. -/
theorem add_node_frame_witness :
    mainStep sampleReached { x := 1, y := 1 } = some sampleReached ∧
      ((sampleTree.add_node { x := 2, y := 3 } 0).nodes.length
          = sampleTree.nodes.length + 1 ∧
        (∀ (i : Nat), i < sampleTree.nodes.length →
          (sampleTree.add_node { x := 2, y := 3 } 0).nodes[i]? = sampleTree.nodes[i]?) ∧
        sampleReached.rrt.nodes.length ≤ sampleReached.rrt.nodes.length ∧
        (∀ (i : Nat), i < sampleReached.rrt.nodes.length →
          sampleReached.rrt.nodes[i]? = sampleReached.rrt.nodes[i]?)) :=
  ⟨mainStep_of_reached sampleReached { x := 1, y := 1 } rfl,
    add_node_frame sampleTree { x := 2, y := 3 } 0 sampleReached { x := 1, y := 1 }
      sampleReached (mainStep_of_reached sampleReached { x := 1, y := 1 } rfl)⟩

/-- Claim C5: in a growing-state iteration, the transition to goal-reached
fires iff the just-produced steered point's distance to the goal is strictly
below the threshold; distance exactly equal to the threshold does not fire. -/
theorem goal_transition_iff (s : LoopState) (q : Point) (ni : Nat) (nr : Node)
    (hg : s.goal_reached = false)
    (hf : s.rrt.find_nearest q = some ni)
    (hn : s.rrt.nodes[ni]? = some nr)
    (hp : ParentLt s.rrt.nodes) :
    ∃ s', mainStep s q = some s' ∧
      (s'.goal_reached = true ↔
        (s.rrt.steer nr.point q).distance s.rrt.goal < s.rrt.goal_threshold) ∧
      ((s.rrt.steer nr.point q).distance s.rrt.goal = s.rrt.goal_threshold →
        s'.goal_reached = false) := by
  have hni : ni < s.rrt.nodes.length := (List.getElem?_eq_some_iff.mp hn).1
  have hgs : growStep s.rrt q =
      some (s.rrt.add_node (s.rrt.steer nr.point q) ni, s.rrt.steer nr.point q) := by
    unfold growStep
    simp only [hf, hn, RRT.is_collision_free, if_true]
  by_cases hd : (s.rrt.steer nr.point q).distance s.rrt.goal < s.rrt.goal_threshold
  · have hp1 : ParentLt (s.rrt.add_node (s.rrt.steer nr.point q) ni).nodes :=
      ParentLt_append s.rrt.nodes hp (s.rrt.steer nr.point q) ni hni
    have hne1 : (s.rrt.add_node (s.rrt.steer nr.point q) ni).nodes ≠ [] := by
      simp [RRT.add_node]
    obtain ⟨path, hpath⟩ :=
      trace_path_total (s.rrt.add_node (s.rrt.steer nr.point q) ni) hp1 hne1
    refine ⟨{ rrt := s.rrt.add_node (s.rrt.steer nr.point q) ni,
              goal_reached := true, optimal_path := path }, ?_, ?_, ?_⟩
    · unfold mainStep
      rw [hg, if_neg Bool.false_ne_true]
      simp only [hgs, hpath]
      rw [show (s.rrt.add_node (s.rrt.steer nr.point q) ni).goal = s.rrt.goal from rfl,
        show (s.rrt.add_node (s.rrt.steer nr.point q) ni).goal_threshold
          = s.rrt.goal_threshold from rfl, if_pos hd]
    · exact ⟨fun _ => hd, fun _ => rfl⟩
    · intro he
      exact absurd hd (by rw [he]; exact lt_irrefl _)
  · refine ⟨{ rrt := s.rrt.add_node (s.rrt.steer nr.point q) ni,
              goal_reached := s.goal_reached, optimal_path := s.optimal_path }, ?_, ?_, ?_⟩
    · unfold mainStep
      rw [hg, if_neg Bool.false_ne_true]
      simp only [hgs]
      rw [show (s.rrt.add_node (s.rrt.steer nr.point q) ni).goal = s.rrt.goal from rfl,
        show (s.rrt.add_node (s.rrt.steer nr.point q) ni).goal_threshold
          = s.rrt.goal_threshold from rfl, if_neg hd]
    · rw [hg]
      constructor
      · intro hcon
        exact absurd hcon Bool.false_ne_true
      · intro hcon
        exact absurd hcon hd
    · intro he
      exact hg

/-- Witness for C5 on a concrete one-node growing state. -/
theorem goal_transition_iff_witness :
    sampleGrowing.goal_reached = false ∧
      sampleGrowing.rrt.find_nearest { x := 1, y := 0 } = some 0 ∧
      sampleGrowing.rrt.nodes[0]? = some (Node.new { x := 0, y := 0 } none) ∧
      ∃ s', mainStep sampleGrowing { x := 1, y := 0 } = some s' ∧
        (s'.goal_reached = true ↔
          (sampleGrowing.rrt.steer (Node.new { x := 0, y := 0 } none).point
              { x := 1, y := 0 }).distance sampleGrowing.rrt.goal
            < sampleGrowing.rrt.goal_threshold) ∧
        ((sampleGrowing.rrt.steer (Node.new { x := 0, y := 0 } none).point
              { x := 1, y := 0 }).distance sampleGrowing.rrt.goal
            = sampleGrowing.rrt.goal_threshold → s'.goal_reached = false) :=
  ⟨rfl, rfl, rfl,
    goal_transition_iff sampleGrowing { x := 1, y := 0 } 0
      (Node.new { x := 0, y := 0 } none) rfl rfl rfl
      (TreeInv.parentLt sampleTree_treeInv)⟩

end RustRRT
